import Mathlib

/-!
Verification of the bank-statement converter (`src/app.py`).

The program extracts identifiers (VD, VP, IPN, CaseID, debtor name) from
free-text payment narratives, validates IPN candidates by the RNOKPP
checksum, normalizes amounts and dates, filters rows by a positive-credit
predicate and assembles an output table.

Texts are modelled as `List Char`.  Each regular expression of the source is
hand-compiled into an explicit matcher with the same semantics (leftmost
search; greedy repetition with backtracking where character classes
overlap).  Python's `re` returns the empty string conventions of the source
(`""` for "not found") are modelled by the empty list.
-/

namespace Conv

/-- Whitespace class of Python's `\s` (ASCII part, which is all the program
relies on): space, tab, newline, carriage return, vertical tab, form feed. -/
def isWs (c : Char) : Bool :=
  c == ' ' || c == '\t' || c == '\n' || c == '\r' ||
  c == '\x0b' || c == '\x0c'

/-- Word character for Python's `\b` (`\w` = alphanumerics plus underscore).
Restricted to ASCII letters/digits, underscore and the Cyrillic block
U+0400–U+04FF, which covers every character class the program's patterns
touch. -/
def isWordChar (c : Char) : Bool :=
  c.isDigit ||
  (decide (65 ≤ c.toNat) && decide (c.toNat ≤ 90)) ||
  (decide (97 ≤ c.toNat) && decide (c.toNat ≤ 122)) ||
  c == '_' ||
  (decide (0x400 ≤ c.toNat) && decide (c.toNat ≤ 0x4FF))

/-- Word-ness of an optional character; the char before the start of the
string (or after its end) counts as non-word. -/
def wordB : Option Char → Bool
  | none => false
  | some c => isWordChar c

/-- Boundary `\b` between two adjacent positions: word-ness differs. -/
def bdry (a : Option Char) (b : Option Char) : Bool :=
  wordB a != wordB b

/-- True when the remainder does not start with a word character, i.e. a
`\b` holds after a word character just consumed. -/
def noWordAt : List Char → Bool
  | [] => true
  | c :: _ => !(isWordChar c)

/-- One case-insensitive literal character of a pattern: consume `c` when it
is the lower- or upper-case form. -/
def ciStep (l u : Char) (s : List Char) : Option (List Char) :=
  match s with
  | c :: r => if c == l || c == u then some r else none
  | [] => none

/-- Pattern `\d{5}`: exactly five decimal digits. -/
def take5d (s : List Char) : Option (List Char × List Char) :=
  match s with
  | a :: b :: c :: d :: e :: rest =>
    if a.isDigit && b.isDigit && c.isDigit && d.isDigit && e.isDigit then
      some ([a, b, c, d, e], rest)
    else none
  | _ => none

/-- Pattern `\d{7}`: exactly seven decimal digits. -/
def take7d (s : List Char) : Option (List Char × List Char) :=
  match s with
  | a :: b :: c :: d :: e :: f :: g :: rest =>
    if a.isDigit && b.isDigit && c.isDigit && d.isDigit && e.isDigit &&
       f.isDigit && g.isDigit then
      some ([a, b, c, d, e, f, g], rest)
    else none
  | _ => none

/-- Pattern `[0-9]{8}`: exactly eight decimal digits. -/
def take8d (s : List Char) : Option (List Char × List Char) :=
  match s with
  | a :: b :: c :: d :: e :: f :: g :: h :: rest =>
    if a.isDigit && b.isDigit && c.isDigit && d.isDigit && e.isDigit &&
       f.isDigit && g.isDigit && h.isDigit then
      some ([a, b, c, d, e, f, g, h], rest)
    else none
  | _ => none

/-- Pattern `\d{10}`: exactly ten decimal digits. -/
def take10d (s : List Char) : Option (List Char × List Char) :=
  match s with
  | a :: b :: c :: d :: e :: f :: g :: h :: i :: j :: rest =>
    if a.isDigit && b.isDigit && c.isDigit && d.isDigit && e.isDigit &&
       f.isDigit && g.isDigit && h.isDigit && i.isDigit && j.isDigit then
      some ([a, b, c, d, e, f, g, h, i, j], rest)
    else none
  | _ => none

/-- Leftmost search: try the matcher at every position from left to right,
threading the previous character for `\b` tests.  Mirrors `re.search`. -/
def scanA (f : Option Char → List Char → Option (List Char)) :
    Option Char → List Char → Option (List Char)
  | prev, [] => f prev []
  | prev, c :: rest =>
    match f prev (c :: rest) with
    | some g => some g
    | none => scanA f (some c) rest

/-! ### RE_VD: `(?i)\bВД\s*№?\s*(\d{5})\b`  -/

/-- Attempt `RE_VD` at one position. -/
def matchVDAt (prev : Option Char) (s : List Char) : Option (List Char) :=
  if wordB prev then none
  else
    match ciStep 'в' 'В' s with
    | none => none
    | some s1 =>
      match ciStep 'д' 'Д' s1 with
      | none => none
      | some s2 =>
        let r1 := s2.dropWhile isWs
        let r2 := match r1 with
          | '№' :: t => t
          | _ => r1
        let r3 := r2.dropWhile isWs
        match take5d r3 with
        | some (ds, rest2) => if noWordAt rest2 then some ds else none
        | none => none

/-- Function `extract_vd` of the source: search `RE_VD`, group 1 or `""`. -/
def extract_vd (t : List Char) : List Char :=
  (scanA matchVDAt none t).getD []

/-! ### RE_VP: `(?i)вп\s*№?\s*([0-9]{8})`
    and RE_VP_SEMI: `;\s*(?:№\s*)?(6\d{7})\s*;`  -/

/-- Attempt `RE_VP` at one position (no word boundaries in the pattern). -/
def matchVPAt (s : List Char) : Option (List Char) :=
  match ciStep 'в' 'В' s with
  | none => none
  | some s1 =>
    match ciStep 'п' 'П' s1 with
    | none => none
    | some s2 =>
      let r1 := s2.dropWhile isWs
      let r2 := match r1 with
        | '№' :: t => t
        | _ => r1
      let r3 := r2.dropWhile isWs
      (take8d r3).map (·.1)

/-- Attempt `RE_VP_SEMI` at one position. -/
def matchVPSemiAt (s : List Char) : Option (List Char) :=
  match s with
  | c :: rest =>
    if c == ';' then
      let r1 := rest.dropWhile isWs
      let r2 := match r1 with
        | '№' :: t => t.dropWhile isWs
        | _ => r1
      match r2 with
      | '6' :: r3 =>
        match take7d r3 with
        | some (ds, rest2) =>
          match rest2.dropWhile isWs with
          | ';' :: _ => some ('6' :: ds)
          | _ => none
        | none => none
      | _ => none
    else none
  | [] => none

/-- Function `extract_vp` of the source: first `RE_VP`, then the semicolon fallback. -/
def extract_vp (t : List Char) : List Char :=
  match scanA (fun _ s => matchVPAt s) none t with
  | some g => g
  | none => (scanA (fun _ s => matchVPSemiAt s) none t).getD []

/-! ### Checksum validator (`ipn_control_digit_first9`, `is_valid_ipn`) -/

/-- RNOKPP weights of the source. -/
def weights : List Int := [-1, 5, 7, 9, 4, 6, 10, 5, 7]

/-- Numeric value of a digit character, as `int(ch)` on a digit. -/
def dval (c : Char) : Int := (c.toNat : Int) - 48

/-- Function `ipn_control_digit_first9`: weighted sum of the nine leading digits,
then `% 11` then `% 10` (Python `%`, i.e. nonnegative residue). -/
def ipn_control_digit_first9 (d9 : List Int) : Int :=
  ((List.zipWith (· * ·) d9 weights).sum % 11) % 10

/-- Function `is_valid_ipn`: ten decimal digits whose last digit equals the control
digit of the first nine; anything else is invalid (never an error). -/
def is_valid_ipn (s : List Char) : Bool :=
  if s ≠ [] ∧ s.all Char.isDigit ∧ s.length = 10 then
    let d := s.map dval
    (d.getD 9 0 == ipn_control_digit_first9 (d.take 9))
  else false

/-! ### RE_IPN_10: `\b(\d{10})\b` with first-valid selection -/

/-- Attempt `RE_IPN_10` at one position. -/
def matchIpnAt (prev : Option Char) (s : List Char) : Option (List Char) :=
  if wordB prev then none
  else
    match take10d s with
    | some (ds, rest) => if noWordAt rest then some ds else none
    | none => none

/-- Scan for `\b`-delimited 10-digit runs, returning the first one that
passes the checksum.  Two such runs can never overlap (the characters inside
a run are digits, hence word characters, so no inner position satisfies
`\b`); therefore trying every start position coincides with the
non-overlapping `finditer` loop of the source. -/
def ipnScan (prev : Option Char) : List Char → List Char
  | [] => []
  | c :: rest =>
    match matchIpnAt prev (c :: rest) with
    | some cand => if is_valid_ipn cand then cand else ipnScan (some c) rest
    | none => ipnScan (some c) rest

/-- Function `extract_ipn` of the source. -/
def extract_ipn (t : List Char) : List Char := ipnScan none t

/-! ### RE_CASEID: `(?iu)\b[\w\-]*[іиi]ден[\w\-]*\b[\s:;#№\-]*([12]\d{5})`

The two `[\w\-]*` stars overlap with the neighbouring classes, so the
matcher backtracks: greedy first (consume one more), then retry the
continuation at the current point, exactly as Python's engine does. -/

/-- Class `[\w\-]`. -/
def wordHy (c : Char) : Bool := isWordChar c || c == '-'

/-- Class `[іиi]` with the case-insensitive flag. -/
def iCls (c : Char) : Bool :=
  c == 'і' || c == 'І' || c == 'и' || c == 'И' || c == 'i' || c == 'I'

/-- Class `[\s:;#№\-]`. -/
def sepCls (c : Char) : Bool :=
  isWs c || c == ':' || c == ';' || c == '#' || c == '№' || c == '-'

/-- Tail `\b[\s:;#№\-]*([12]\d{5})`; `pc` is the character just before the
remainder, for the `\b` test. -/
def caseTail (pc : Char) (s : List Char) : Option (List Char) :=
  if bdry (some pc) s.head? then
    match s.dropWhile sepCls with
    | c :: r =>
      if c == '1' || c == '2' then
        (take5d r).map (fun p => c :: p.1)
      else none
    | [] => none
  else none

/-- Second `[\w\-]*` star (greedy with backtracking), then the tail. -/
def caseStar2 (pc : Char) : List Char → Option (List Char)
  | [] => caseTail pc []
  | c :: rest =>
    if wordHy c then
      match caseStar2 c rest with
      | some g => some g
      | none => caseTail pc (c :: rest)
    else caseTail pc (c :: rest)

/-- Literal `[іиi]ден` (case-insensitive) then the second star. -/
def caseIden (s : List Char) : Option (List Char) :=
  match s with
  | c1 :: c2 :: c3 :: c4 :: rest =>
    if iCls c1 && (c2 == 'д' || c2 == 'Д') && (c3 == 'е' || c3 == 'Е') &&
       (c4 == 'н' || c4 == 'Н') then
      caseStar2 c4 rest
    else none
  | _ => none

/-- First `[\w\-]*` star (greedy with backtracking), then `[іиi]ден…`. -/
def caseStar1 : List Char → Option (List Char)
  | [] => caseIden []
  | c :: rest =>
    if wordHy c then
      match caseStar1 rest with
      | some g => some g
      | none => caseIden (c :: rest)
    else caseIden (c :: rest)

/-- Attempt `RE_CASEID` at one position: the leading `\b` is a property of
the position alone, then the backtracking body. -/
def matchCaseAt (prev : Option Char) (s : List Char) : Option (List Char) :=
  if bdry prev s.head? then caseStar1 s else none

/-- Function `extract_caseid` of the source. -/
def extract_caseid (t : List Char) : List Char :=
  (scanA matchCaseAt none t).getD []

/-! ### NAME_AFTER_BORZHNIK:
`(?i)боржник\s*:\s*([А-ЯA-ZІЇЄҐ][А-Яа-яA-Za-zІЇЄҐіїєґ'`-]+(?:\s+[А-ЯA-ZІЇЄҐ][А-Яа-яA-Za-zІЇЄҐіїєґ'`-]+){1,2})` -/

/-- Class `[А-ЯA-ZІЇЄҐ]` under the global `(?i)` flag: case folding makes it match
the lower-case letters as well. -/
def cls1 (c : Char) : Bool :=
  (decide (0x410 ≤ c.toNat) && decide (c.toNat ≤ 0x44F)) ||
  (decide (65 ≤ c.toNat) && decide (c.toNat ≤ 90)) ||
  (decide (97 ≤ c.toNat) && decide (c.toNat ≤ 122)) ||
  c == 'І' || c == 'Ї' || c == 'Є' || c == 'Ґ' ||
  c == 'і' || c == 'ї' || c == 'є' || c == 'ґ'

/-- Class `[А-Яа-яA-Za-zІЇЄҐіїєґ'`-]`. -/
def cls2 (c : Char) : Bool :=
  cls1 c || c == '\'' || c == '`' || c == '-'

/-- One name token: a `cls1` letter followed by one or more `cls2`
characters (greedy; nothing after it in the pattern can consume a `cls2`
character, so no backtracking is possible). -/
def nameWord (s : List Char) : Option (List Char × List Char) :=
  match s with
  | c :: rest =>
    if cls1 c then
      match rest.span cls2 with
      | (t, r) => if t.isEmpty then none else some (c :: t, r)
    else none
  | [] => none

/-- Pattern `\s+` (greedy; the following token starts with a letter, disjoint from
whitespace, so greed is harmless). -/
def wsPlus (s : List Char) : Option (List Char × List Char) :=
  match s.span isWs with
  | (sp, r) => if sp.isEmpty then none else some (sp, r)

/-- The literal `боржник`, case-insensitively. -/
def borzhChk (s : List Char) : Option (List Char) :=
  (ciStep 'б' 'Б' s).bind (ciStep 'о' 'О') |>.bind (ciStep 'р' 'Р')
    |>.bind (ciStep 'ж' 'Ж') |>.bind (ciStep 'н' 'Н')
    |>.bind (ciStep 'и' 'И') |>.bind (ciStep 'к' 'К')

/-- Attempt the name pattern at one position.  The counted group `{1,2}` is
greedy: a second extra token is taken when it matches, otherwise one. -/
def matchNameAt (s : List Char) : Option (List Char) :=
  match borzhChk s with
  | none => none
  | some rest =>
    match rest.dropWhile isWs with
    | ':' :: r2 =>
      match nameWord (r2.dropWhile isWs) with
      | some (w1, r4) =>
        match wsPlus r4 with
        | some (sp1, r5) =>
          match nameWord r5 with
          | some (w2, r6) =>
            match wsPlus r6 with
            | some (sp2, r7) =>
              match nameWord r7 with
              | some (w3, _) => some (w1 ++ sp1 ++ w2 ++ sp2 ++ w3)
              | none => some (w1 ++ sp1 ++ w2)
            | none => some (w1 ++ sp1 ++ w2)
          | none => none
        | none => none
      | none => none
    | _ => none

/-- Model of `re.sub(r"\s*\d+\s*$", "", g)`: remove a trailing run of digits together
with the whitespace around it (a no-op when the text does not end in
whitespace-then-digits). -/
def subTrailDigits (g : List Char) : List Char :=
  let r := g.reverse
  let r1 := r.dropWhile isWs
  match r1 with
  | c :: _ =>
    if c.isDigit then ((r1.dropWhile Char.isDigit).dropWhile isWs).reverse
    else g
  | [] => g

/-- Python `str.strip()`. -/
def pyStrip (s : List Char) : List Char :=
  ((s.dropWhile isWs).reverse.dropWhile isWs).reverse

/-- Function `extract_name` of the source: search the marker pattern, then strip a
trailing digit fragment and surrounding whitespace from the group. -/
def extract_name (t : List Char) : List Char :=
  match scanA (fun _ s => matchNameAt s) none t with
  | some g => pyStrip (subTrailDigits g)
  | none => []

/-! ### Amount normalizer (`parse_amount`) -/

/-- Numeric value of a digit string. -/
def natVal (s : List Char) : Nat :=
  s.foldl (fun a c => a * 10 + (c.toNat - 48)) 0

/-- Unsigned decimal literal as accepted by Python's numeric parser after
the character filter (digits with at most one point, at least one digit;
any stray character makes it unparsable). -/
def pyFloatPos (t : List Char) : Option ℚ :=
  let ip := t.takeWhile (fun c => !(c == '.'))
  match t.dropWhile (fun c => !(c == '.')) with
  | [] =>
    if !ip.isEmpty && ip.all Char.isDigit then some (mkRat (natVal ip) 1)
    else none
  | _ :: fp =>
    if ip.all Char.isDigit && fp.all Char.isDigit &&
       (!ip.isEmpty || !fp.isEmpty) then
      some (mkRat (natVal (ip ++ fp)) (10 ^ fp.length))
    else none

/-- Signed numeric parse, as `pd.to_numeric(..., errors="coerce")` behaves
on the filtered text: `none` models NaN (unparsable), never an error. -/
def pyFloat (s : List Char) : Option ℚ :=
  match s with
  | '-' :: t => (pyFloatPos t).map Neg.neg
  | t => pyFloatPos t

/-- Function `parse_amount` of the source: NBSP to space, drop spaces, comma to
point, keep only digits / point / minus, then numeric parse (unparsable
input yields `none`, mirroring NaN). -/
def parse_amount (s : List Char) : Option ℚ :=
  let s1 := s.map (fun c => if c == ' ' then ' ' else c)
  let s2 := s1.filter (fun c => !(c == ' '))
  let s3 := s2.map (fun c => if c == ',' then '.' else c)
  let s4 := s3.filter (fun c => c.isDigit || c == '.' || c == '-')
  pyFloat s4

/-- The row filter `amt_num > 0` of the source: a missing (NaN) amount
compares false, so such rows are dropped. -/
def creditKeep (o : Option ℚ) : Bool :=
  match o with
  | none => false
  | some v => decide (0 < v)

/-! ### Date normalizer -/

/-- A calendar date. -/
structure MyDate where
  year : Nat
  month : Nat
  day : Nat
deriving DecidableEq, Repr

/-- Split on `.` or `/` separators. -/
def splitSep (s : List Char) : List (List Char) :=
  s.foldr
    (fun c acc =>
      if c == '.' || c == '/' then [] :: acc
      else
        match acc with
        | [] => [[c]]
        | g :: t => (c :: g) :: t)
    [[]]

/-- Modelled from the spec: the date normalizer (the source delegates to the
external `pandas.to_datetime(..., dayfirst=True, errors="coerce")`, which is
not part of this repository).  Day-before-month precedence on
`D.M.YYYY` / `D/M/YYYY`; anything unparsable yields `none`, never an
error. -/
def normalize_date (s : List Char) : Option MyDate :=
  match splitSep s with
  | [d, m, y] =>
    if !d.isEmpty && decide (d.length ≤ 2) && d.all Char.isDigit &&
       !m.isEmpty && decide (m.length ≤ 2) && m.all Char.isDigit &&
       decide (y.length = 4) && y.all Char.isDigit then
      let dv := natVal d
      let mv := natVal m
      if decide (1 ≤ dv) && decide (dv ≤ 31) && decide (1 ≤ mv) &&
         decide (mv ≤ 12) then
        some ⟨natVal y, mv, dv⟩
      else none
    else none
  | _ => none

/-! ### Header cleaning and column resolution -/

/-- Collapse every run of whitespace to a single space (`re.sub` with
`\s+`). -/
def squeezeWs : List Char → List Char
  | [] => []
  | [c] => if isWs c then [' '] else [c]
  | c :: d :: rest =>
    if isWs c && isWs d then squeezeWs (d :: rest)
    else (if isWs c then ' ' else c) :: squeezeWs (d :: rest)

/-- Function `_clean_header` of the source: NBSP to space, drop BOM, collapse
whitespace, strip. -/
def clean_header (s : String) : String :=
  let t := (s.data.map (fun c => if c == ' ' then ' ' else c)).filter
    (fun c => !(c == '﻿'))
  String.mk (pyStrip (squeezeWs t))

/-- Function `pick_col` of the source (list-of-candidates form, the only one the
pipeline uses): first candidate present among the columns. -/
def pick_col (cols : List String) : List String → Option String
  | [] => none
  | c :: cs => if c ∈ cols then some c else pick_col cols cs

/-! ### Footer-row pattern `(всього\s+за\s+оборотами|кінцевий\s+залишок)` -/

/-- Pattern `\s+` for the footer pattern: at least one whitespace consumed
greedily (the following pattern character is a letter, disjoint). -/
def wsSkip1 (s : List Char) : Option (List Char) :=
  match s with
  | c :: r => if isWs c then some (r.dropWhile isWs) else none
  | [] => none

/-- First alternative `всього\s+за\s+оборотами` at one position. -/
def footAlt1 (s : List Char) : Bool :=
  ((ciStep 'в' 'В' s).bind (ciStep 'с' 'С') |>.bind (ciStep 'ь' 'Ь')
    |>.bind (ciStep 'о' 'О') |>.bind (ciStep 'г' 'Г') |>.bind (ciStep 'о' 'О')
    |>.bind wsSkip1
    |>.bind (ciStep 'з' 'З') |>.bind (ciStep 'а' 'А')
    |>.bind wsSkip1
    |>.bind (ciStep 'о' 'О') |>.bind (ciStep 'б' 'Б') |>.bind (ciStep 'о' 'О')
    |>.bind (ciStep 'р' 'Р') |>.bind (ciStep 'о' 'О') |>.bind (ciStep 'т' 'Т')
    |>.bind (ciStep 'а' 'А') |>.bind (ciStep 'м' 'М')
    |>.bind (ciStep 'и' 'И')).isSome

/-- Second alternative `кінцевий\s+залишок` at one position. -/
def footAlt2 (s : List Char) : Bool :=
  ((ciStep 'к' 'К' s).bind (ciStep 'і' 'І') |>.bind (ciStep 'н' 'Н')
    |>.bind (ciStep 'ц' 'Ц') |>.bind (ciStep 'е' 'Е') |>.bind (ciStep 'в' 'В')
    |>.bind (ciStep 'и' 'И') |>.bind (ciStep 'й' 'Й')
    |>.bind wsSkip1
    |>.bind (ciStep 'з' 'З') |>.bind (ciStep 'а' 'А') |>.bind (ciStep 'л' 'Л')
    |>.bind (ciStep 'и' 'И') |>.bind (ciStep 'ш' 'Ш') |>.bind (ciStep 'о' 'О')
    |>.bind (ciStep 'к' 'К')).isSome

/-- Search the footer pattern anywhere in the joined row text. -/
def footerScan : List Char → Bool
  | [] => false
  | c :: r => footAlt1 (c :: r) || footAlt2 (c :: r) || footerScan r

/-! ### Pipeline (module-level code of the source) -/

/-- The fatal missing-columns report: the full list of unresolved logical
fields and all detected (cleaned) headers; raised before any row
processing. -/
structure MissingErr where
  missing : List String
  headers : List String
deriving DecidableEq, Repr

/-- One output record (the per-row result columns: date, the four
identifiers converted to nullable integers, name, credit, purpose). -/
structure OutRec where
  date : Option MyDate
  vd : Option Int
  vp : Option Int
  ipn : Option Int
  caseid : Option Int
  name : List Char
  credit : Option ℚ
  purpose : String
deriving DecidableEq, Repr

/-- Pipeline output: summary counters and the surviving records. -/
structure PipeOut where
  total : Nat
  creditPos : Nat
  cntVp : Nat
  cntVd : Nat
  cntIpn : Nat
  cntCase : Nat
  cntNothing : Nat
  records : List OutRec
deriving DecidableEq, Repr

/-- Model of `pd.to_numeric(..., errors="coerce").astype("Int64")` applied to an
extractor output, which is always either empty or a run of decimal digits:
empty coerces to null, digits to their numeric value. -/
def toId64 (s : List Char) : Option Int :=
  if !s.isEmpty && s.all Char.isDigit then some (natVal s : Int) else none

/-- Value of a named column in a row (headers and row cells are positional;
a missing column reads as empty, though the pipeline only reads columns it
has resolved). -/
def colValue (chs : List String) (row : List String) (c : String) : String :=
  match chs.findIdx? (· == c) with
  | some i => row.getD i ""
  | none => ""

/-- Intermediate per-row extraction results, before the numeric conversion
of the identifier columns (the source's `df_pos` columns, over which the
counters are computed). -/
structure MidRec where
  vd : List Char
  vp : List Char
  ipn : List Char
  caseid : List Char
  name : List Char
  purpose : String
  date : Option MyDate
  credit : Option ℚ

/-- Rows surviving the credit filter, extracted and counted (source lines
169–203). -/
def runRows (chs : List String) (rows : List (List String)) (dc cc : String) :
    PipeOut :=
  let total := rows.length
  let pos := rows.filter (fun r => creditKeep (parse_amount (colValue chs r cc).data))
  let mids := pos.map (fun r =>
    let p := colValue chs r "Призначення платежу"
    ({ vd := extract_vd p.data, vp := extract_vp p.data,
       ipn := extract_ipn p.data, caseid := extract_caseid p.data,
       name := extract_name p.data, purpose := p,
       date := normalize_date (colValue chs r dc).data,
       credit := parse_amount (colValue chs r cc).data } : MidRec))
  { total := total
    creditPos := pos.length
    cntVp := (mids.filter (fun m => !m.vp.isEmpty)).length
    cntVd := (mids.filter (fun m => !m.vd.isEmpty)).length
    cntIpn := (mids.filter (fun m => !m.ipn.isEmpty)).length
    cntCase := (mids.filter (fun m => !m.caseid.isEmpty)).length
    cntNothing := (mids.filter (fun m =>
      m.vp.isEmpty && m.vd.isEmpty && m.ipn.isEmpty && m.caseid.isEmpty)).length
    records := mids.map (fun m =>
      ({ date := m.date, vd := toId64 m.vd, vp := toId64 m.vp,
         ipn := toId64 m.ipn, caseid := toId64 m.caseid, name := m.name,
         credit := m.credit, purpose := m.purpose } : OutRec)) }

/-- The module-level pipeline (source lines 143–203): clean headers, drop
footer rows, resolve the required columns (error out before any row
processing when one is missing, reporting all missing fields and all
detected headers), filter by positive credit, extract and assemble. -/
def processTable (headers : List String) (rows : List (List String)) :
    Except MissingErr PipeOut :=
  let chs := headers.map clean_header
  let rows1 := rows.filter (fun r => !footerScan (String.intercalate " " r).data)
  let dateCol := pick_col chs ["Дата", "Дата операції"]
  let creditCol := pick_col chs ["Зараховано", "Кредит"]
  let missing :=
    (if dateCol = none then ["Дата/Дата операції"] else []) ++
    (if creditCol = none then ["Зараховано/Кредит"] else []) ++
    (if "Призначення платежу" ∈ chs then [] else ["Призначення платежу"])
  if missing = [] then
    Except.ok (runRows chs rows1 (dateCol.getD "") (creditCol.getD ""))
  else Except.error ⟨missing, chs⟩

/-! ### Spec-side definitions used to state the claims -/

/-- Spec-side (claim C4's wording): the maximal runs of consecutive digits
of a text, in order of appearance. -/
def digitRuns (t : List Char) : List (List Char) :=
  let p := t.foldr
    (fun c (acc : List (List Char) × List Char) =>
      if c.isDigit then (acc.1, c :: acc.2)
      else (if acc.2.isEmpty then acc.1 else acc.2 :: acc.1, []))
    ([], [])
  if p.2.isEmpty then p.1 else p.2 :: p.1

/-- Spec-side (claim C4's wording): the first maximal 10-digit run that
passes the checksum, empty when none does. -/
def claimIpn (t : List Char) : List Char :=
  (((digitRuns t).filter (fun r => r.length = 10)).find?
    (fun r => is_valid_ipn r)).getD []

/-- Spec-side (claim C7): whether `боржник` occurs case-insensitively
anywhere in the text. -/
def hasBorzh : List Char → Bool
  | [] => false
  | c :: rest => (borzhChk (c :: rest)).isSome || hasBorzh rest

/-! ### Helper lemmas -/

theorem beq_false_of_digit (d : Char) {c : Char} (h : c.isDigit = true)
    (hd : d.isDigit = false) : (c == d) = false := by
  cases hbe : c == d
  · rfl
  · exact absurd (eq_of_beq hbe ▸ h) (by simp [hd])

theorem isWs_false_of_digit {c : Char} (h : c.isDigit = true) :
    isWs c = false := by
  simp only [isWs, beq_false_of_digit ' ' h (by decide),
    beq_false_of_digit '\t' h (by decide),
    beq_false_of_digit '\n' h (by decide),
    beq_false_of_digit '\r' h (by decide),
    beq_false_of_digit '\x0b' h (by decide),
    beq_false_of_digit '\x0c' h (by decide), Bool.or_self, Bool.or_false]

theorem isWordChar_of_digit {c : Char} (h : c.isDigit = true) :
    isWordChar c = true := by
  simp [isWordChar, h]

theorem is_valid_ipn_shape {r : List Char} (h : is_valid_ipn r = true) :
    r.length = 10 ∧ r.all Char.isDigit = true := by
  by_cases hg : r ≠ [] ∧ r.all Char.isDigit ∧ r.length = 10
  · exact ⟨hg.2.2, hg.2.1⟩
  · rw [is_valid_ipn, if_neg hg] at h
    simp at h

theorem ipnScan_ok (t : List Char) : ∀ prev : Option Char,
    ipnScan prev t = [] ∨ is_valid_ipn (ipnScan prev t) = true := by
  induction t with
  | nil => intro prev; left; rfl
  | cons c rest ih =>
    intro prev
    cases hm : matchIpnAt prev (c :: rest) with
    | none => simp only [ipnScan, hm]; exact ih (some c)
    | some cand =>
      by_cases hv : is_valid_ipn cand = true
      · simp only [ipnScan, hm, hv, if_true]; right; trivial
      · simp only [ipnScan, hm]; rw [if_neg hv]; exact ih (some c)

/-! ### Claim theorems -/

/-- Claim C1: the checksum validator accepts a 10-character all-digit
string exactly when its 10th digit equals
`(sum over i in 0..8 of digit_i * w_i) mod 11 mod 10` with
`w = [-1,5,7,9,4,6,10,5,7]`, and returns `false` (rather than raising) on
every input that is not exactly 10 decimal digits. -/
theorem checksum_validator_c1 :
    (∀ s : List Char, s.length = 10 → s.all Char.isDigit = true →
      (is_valid_ipn s = true ↔
        dval (s.getD 9 '0') =
          ((List.zipWith (fun c w => dval c * w) (s.take 9)
              ([-1, 5, 7, 9, 4, 6, 10, 5, 7] : List Int)).sum % 11) % 10)) ∧
    (∀ s : List Char, ¬ (s.length = 10 ∧ s.all Char.isDigit = true) →
      is_valid_ipn s = false) := by
  constructor
  · intro s h10 hdig
    rcases s with _ | ⟨c0, s⟩; · simp at h10
    rcases s with _ | ⟨c1, s⟩; · simp at h10
    rcases s with _ | ⟨c2, s⟩; · simp at h10
    rcases s with _ | ⟨c3, s⟩; · simp at h10
    rcases s with _ | ⟨c4, s⟩; · simp at h10
    rcases s with _ | ⟨c5, s⟩; · simp at h10
    rcases s with _ | ⟨c6, s⟩; · simp at h10
    rcases s with _ | ⟨c7, s⟩; · simp at h10
    rcases s with _ | ⟨c8, s⟩; · simp at h10
    rcases s with _ | ⟨c9, s⟩; · simp at h10
    rcases s with _ | ⟨c10, s⟩
    · rw [is_valid_ipn, if_pos ⟨by simp, hdig, h10⟩]
      simp [ipn_control_digit_first9, weights, beq_iff_eq]
    · simp at h10
  · intro s h
    rw [is_valid_ipn, if_neg (fun hc => h ⟨hc.2.2, hc.2.1⟩)]

theorem checksum_validator_c1_wit :
    is_valid_ipn ("1234567899".data) = true ∧
    is_valid_ipn ("123".data) = false :=
  ⟨(checksum_validator_c1.1 ("1234567899".data) (by decide) (by decide)).mpr
      (by decide),
    checksum_validator_c1.2 ("123".data) (by decide)⟩

theorem take8d_none_short {s : List Char} (h : s.length < 8) :
    take8d s = none := by
  rcases s with _ | ⟨a, s⟩; · rfl
  rcases s with _ | ⟨b, s⟩; · rfl
  rcases s with _ | ⟨c, s⟩; · rfl
  rcases s with _ | ⟨d, s⟩; · rfl
  rcases s with _ | ⟨e, s⟩; · rfl
  rcases s with _ | ⟨f, s⟩; · rfl
  rcases s with _ | ⟨g, s⟩; · rfl
  rcases s with _ | ⟨i, s⟩; · rfl
  simp at h
  omega

theorem dropWhile_ws_of_digits {s : List Char} (h : s.all Char.isDigit = true) :
    s.dropWhile isWs = s := by
  cases s with
  | nil => rfl
  | cons c r =>
    simp only [List.all_cons, Bool.and_eq_true] at h
    simp [List.dropWhile_cons, isWs_false_of_digit h.1]

theorem noSemi_of_digits {s : List Char} (h : s.all Char.isDigit = true) :
    s.all (fun c => !(c == ';')) = true := by
  induction s with
  | nil => rfl
  | cons c r ih =>
    simp only [List.all_cons, Bool.and_eq_true] at h ⊢
    exact ⟨by simp [beq_false_of_digit ';' h.1 (by decide)], ih h.2⟩

theorem vpScan_digits {s : List Char} (h : s.all Char.isDigit = true) :
    ∀ prev, scanA (fun _ t => matchVPAt t) prev s = none := by
  induction s with
  | nil => intro prev; rfl
  | cons c rest ih =>
    intro prev
    simp only [List.all_cons, Bool.and_eq_true] at h
    have hstep : matchVPAt (c :: rest) = none := by
      simp [matchVPAt, ciStep, beq_false_of_digit 'в' h.1 (by decide),
        beq_false_of_digit 'В' h.1 (by decide)]
    simp only [scanA, hstep]
    exact ih h.2 (some c)

theorem semiScan_none {s : List Char} (h : s.all (fun c => !(c == ';')) = true) :
    ∀ prev, scanA (fun _ t => matchVPSemiAt t) prev s = none := by
  induction s with
  | nil => intro prev; rfl
  | cons c rest ih =>
    intro prev
    simp only [List.all_cons, Bool.and_eq_true] at h
    have hc : (c == ';') = false := by
      cases hbe : c == ';'
      · rfl
      · rw [hbe] at h; simp at h
    have hstep : matchVPSemiAt (c :: rest) = none := by
      simp [matchVPSemiAt, hc]
    simp only [scanA, hstep]
    exact ih h.2 (some c)

/-- Claim C10: the IPN extractor never raises (it is a total function) and
its result is either empty (null) or a string of exactly 10 decimal digits
that itself passes the checksum validator; it never returns a candidate
that fails validation. -/
theorem ipn_extractor_sound_c10 (t : List Char) :
    extract_ipn t = [] ∨
    ((extract_ipn t).length = 10 ∧ (extract_ipn t).all Char.isDigit = true ∧
      is_valid_ipn (extract_ipn t) = true) := by
  rcases ipnScan_ok t none with h | h
  · left; exact h
  · right; exact ⟨(is_valid_ipn_shape h).1, (is_valid_ipn_shape h).2, h⟩

/-- Claim C2, counterexample: the claim predicts that `ІП` is a recognized
token (so `ІП№123456` should yield `123456`), that `ВП` followed by a
6-digit run yields that run, and that `ВП` followed by a 10-digit run
yields the whole run.  On the code the first two yield nothing and the
third yields only the first 8 digits. -/
theorem vp_keyword_shape_c2_cex :
    extract_vp ("ІП№123456".data) = [] ∧
    extract_vp ("ВП 123456".data) = [] ∧
    extract_vp ("ВП№1234567890".data) = "12345678".data := by
  refine ⟨by decide, by decide, by decide⟩

/-- Claim C2, amended: the VP extractor implements the legacy rule: the
token `вп` (case-insensitive) optionally followed by spaces and `№`, then
exactly 8 digits — the first 8 of a longer run; digit runs shorter than 8
after the token yield nothing; `ІП` is not a recognized token; a semicolon-
delimited 8-digit group starting with `6` is the only fallback. -/
theorem vp_legacy_rule_c2 :
    (∀ d8 rest : List Char, d8.length = 8 → d8.all Char.isDigit = true →
      extract_vp ("ВП№".data ++ d8 ++ rest) = d8) ∧
    (∀ ds : List Char, ds.all Char.isDigit = true → ds.length < 8 →
      extract_vp ("ВП№".data ++ ds) = []) ∧
    (∀ ds : List Char, ds.all Char.isDigit = true →
      extract_vp ("ІП№".data ++ ds) = []) ∧
    extract_vp ("хх; 61234567 ;".data) = "61234567".data := by
  have hnum : isWs '№' = false := by decide
  refine ⟨?_, ?_, ?_, by decide⟩
  · intro d8 rest h8 hdig
    rcases d8 with _ | ⟨d0, d8⟩; · simp at h8
    rcases d8 with _ | ⟨d1, d8⟩; · simp at h8
    rcases d8 with _ | ⟨d2, d8⟩; · simp at h8
    rcases d8 with _ | ⟨d3, d8⟩; · simp at h8
    rcases d8 with _ | ⟨d4, d8⟩; · simp at h8
    rcases d8 with _ | ⟨d5, d8⟩; · simp at h8
    rcases d8 with _ | ⟨d6, d8⟩; · simp at h8
    rcases d8 with _ | ⟨d7, d8⟩; · simp at h8
    rcases d8 with _ | ⟨d9, d8⟩
    swap; · simp at h8
    simp only [List.all_cons, List.all_nil, Bool.and_eq_true, and_true] at hdig
    obtain ⟨h0, h1, h2, h3, h4, h5, h6, h7⟩ := hdig
    simp [extract_vp, scanA, matchVPAt, ciStep, take8d, hnum,
      isWs_false_of_digit h0, h0, h1, h2, h3, h4, h5, h6, h7,
      List.dropWhile_cons]
  · intro ds hdig hlen
    have hvp0 : matchVPAt ('В' :: 'П' :: '№' :: ds) = none := by
      simp [matchVPAt, ciStep, hnum, dropWhile_ws_of_digits hdig,
        take8d_none_short hlen, List.dropWhile_cons]
    have hvp1 : matchVPAt ('П' :: '№' :: ds) = none := by
      simp [matchVPAt, ciStep]
    have hvp2 : matchVPAt ('№' :: ds) = none := by
      simp [matchVPAt, ciStep]
    have hsemi : ('В' :: 'П' :: '№' :: ds).all (fun c => !(c == ';')) = true := by
      simp [noSemi_of_digits hdig]
    have hs1 : scanA (fun _ t => matchVPAt t) none ('В' :: 'П' :: '№' :: ds) = none := by
      simp only [scanA, hvp0, hvp1, hvp2]
      exact vpScan_digits hdig (some '№')
    have hs2 : scanA (fun _ t => matchVPSemiAt t) none ('В' :: 'П' :: '№' :: ds) = none :=
      semiScan_none hsemi none
    simp only [extract_vp, List.cons_append, List.nil_append, hs1, hs2,
      Option.getD_none]
  · intro ds hdig
    have hvp0 : matchVPAt ('І' :: 'П' :: '№' :: ds) = none := by
      simp [matchVPAt, ciStep]
    have hvp1 : matchVPAt ('П' :: '№' :: ds) = none := by
      simp [matchVPAt, ciStep]
    have hvp2 : matchVPAt ('№' :: ds) = none := by
      simp [matchVPAt, ciStep]
    have hsemi : ('І' :: 'П' :: '№' :: ds).all (fun c => !(c == ';')) = true := by
      simp [noSemi_of_digits hdig]
    have hs1 : scanA (fun _ t => matchVPAt t) none ('І' :: 'П' :: '№' :: ds) = none := by
      simp only [scanA, hvp0, hvp1, hvp2]
      exact vpScan_digits hdig (some '№')
    have hs2 : scanA (fun _ t => matchVPSemiAt t) none ('І' :: 'П' :: '№' :: ds) = none :=
      semiScan_none hsemi none
    simp only [extract_vp, List.cons_append, List.nil_append, hs1, hs2,
      Option.getD_none]

theorem vp_legacy_rule_c2_wit :
    extract_vp ("ВП№".data ++ "87654321".data ++ []) = "87654321".data :=
  vp_legacy_rule_c2.1 ("87654321".data) [] (by decide) (by decide)

/-- Claim C3, counterexample: the claim predicts that a VD match is
discarded when an enforcement-proceeding marker (here `іп`) occurs within
10 characters of the matched number; the code applies no such window and
returns the number. -/
theorem vd_marker_window_c3_cex :
    extract_vd ("іп ВД№12345".data) = "12345".data ∧
    extract_vd ("іп ВД№12345".data) ≠ [] := by
  refine ⟨by decide, by decide⟩

/-- Claim C3, amended: VD extraction applies no enforcement-marker
exclusion window: the five digits after `ВД` (optional spaces and `№`) are
returned even when a marker such as `іп` is adjacent to the match. -/
theorem vd_ignores_markers_c3 (ds : List Char) (h5 : ds.length = 5)
    (hdig : ds.all Char.isDigit = true) :
    extract_vd ("іп ВД№".data ++ ds) = ds := by
  rcases ds with _ | ⟨d0, ds⟩; · simp at h5
  rcases ds with _ | ⟨d1, ds⟩; · simp at h5
  rcases ds with _ | ⟨d2, ds⟩; · simp at h5
  rcases ds with _ | ⟨d3, ds⟩; · simp at h5
  rcases ds with _ | ⟨d4, ds⟩; · simp at h5
  rcases ds with _ | ⟨d5, ds⟩
  swap; · simp at h5
  simp only [List.all_cons, List.all_nil, Bool.and_eq_true, and_true] at hdig
  obtain ⟨h0, h1, h2, h3, h4⟩ := hdig
  simp [extract_vd, scanA, matchVDAt, ciStep, take5d, wordB, noWordAt,
    (by decide : isWs '№' = false), (by decide : isWordChar 'і' = true),
    (by decide : isWordChar 'п' = true), (by decide : isWordChar ' ' = false),
    (by decide : isWordChar 'В' = true), (by decide : isWordChar 'Д' = true),
    isWs_false_of_digit h0, h0, h1, h2, h3, h4, List.dropWhile_cons]

theorem vd_ignores_markers_c3_wit :
    extract_vd ("іп ВД№".data ++ "12345".data) = "12345".data :=
  vd_ignores_markers_c3 ("12345".data) (by decide) (by decide)

/-- Claim C4, counterexample: in `а1234567899` the run `1234567899` is a
maximal 10-digit substring and passes the checksum, so the claim predicts
it is returned; the code requires a word boundary (`\b`) and the adjacent
Cyrillic letter suppresses the candidate, so the extractor returns
nothing. -/
theorem ipn_maximal_run_c4_cex :
    claimIpn ("а1234567899".data) = "1234567899".data ∧
    is_valid_ipn ("1234567899".data) = true ∧
    extract_ipn ("а1234567899".data) = [] ∧
    extract_ipn ("а1234567899".data) ≠ claimIpn ("а1234567899".data) := by
  refine ⟨by decide, by decide, by decide, by decide⟩

/-- Claim C4, amended: the extractor scans 10-digit runs delimited by word
boundaries (not adjacent to a letter, digit, or underscore) from left to
right and returns the first one that passes the checksum (ignoring any
later valid run); a 10-digit run glued to a word character is not a
candidate at all; if no candidate validates the result is empty. -/
theorem ipn_boundary_first_c4 :
    (∀ a b : List Char, a.length = 10 → a.all Char.isDigit = true →
      is_valid_ipn a = true → b.length = 10 → b.all Char.isDigit = true →
      is_valid_ipn b = true → extract_ipn (a ++ ' ' :: b) = a) ∧
    (∀ (c : Char) (a : List Char), isWordChar c = true → c.isDigit = false →
      a.length = 10 → a.all Char.isDigit = true →
      extract_ipn (c :: a) = []) := by
  constructor
  · intro a b h10 hdig hval _ _ _
    rcases a with _ | ⟨d0, a⟩; · simp at h10
    rcases a with _ | ⟨d1, a⟩; · simp at h10
    rcases a with _ | ⟨d2, a⟩; · simp at h10
    rcases a with _ | ⟨d3, a⟩; · simp at h10
    rcases a with _ | ⟨d4, a⟩; · simp at h10
    rcases a with _ | ⟨d5, a⟩; · simp at h10
    rcases a with _ | ⟨d6, a⟩; · simp at h10
    rcases a with _ | ⟨d7, a⟩; · simp at h10
    rcases a with _ | ⟨d8, a⟩; · simp at h10
    rcases a with _ | ⟨d9, a⟩; · simp at h10
    rcases a with _ | ⟨d10, a⟩
    swap; · simp at h10
    simp only [List.all_cons, List.all_nil, Bool.and_eq_true, and_true] at hdig
    obtain ⟨h0, h1, h2, h3, h4, h5, h6, h7, h8, h9⟩ := hdig
    simp [extract_ipn, ipnScan, matchIpnAt, wordB, take10d, noWordAt,
      (by decide : isWordChar ' ' = false), h0, h1, h2, h3, h4, h5, h6, h7,
      h8, h9, hval]
  · intro c a hcw hcd h10 hdig
    rcases a with _ | ⟨d0, a⟩; · simp at h10
    rcases a with _ | ⟨d1, a⟩; · simp at h10
    rcases a with _ | ⟨d2, a⟩; · simp at h10
    rcases a with _ | ⟨d3, a⟩; · simp at h10
    rcases a with _ | ⟨d4, a⟩; · simp at h10
    rcases a with _ | ⟨d5, a⟩; · simp at h10
    rcases a with _ | ⟨d6, a⟩; · simp at h10
    rcases a with _ | ⟨d7, a⟩; · simp at h10
    rcases a with _ | ⟨d8, a⟩; · simp at h10
    rcases a with _ | ⟨d9, a⟩; · simp at h10
    rcases a with _ | ⟨d10, a⟩
    swap; · simp at h10
    simp only [List.all_cons, List.all_nil, Bool.and_eq_true, and_true] at hdig
    obtain ⟨h0, h1, h2, h3, h4, h5, h6, h7, h8, h9⟩ := hdig
    simp [extract_ipn, ipnScan, matchIpnAt, wordB, take10d, hcd, hcw,
      isWordChar_of_digit h0, isWordChar_of_digit h1, isWordChar_of_digit h2,
      isWordChar_of_digit h3, isWordChar_of_digit h4, isWordChar_of_digit h5,
      isWordChar_of_digit h6, isWordChar_of_digit h7, isWordChar_of_digit h8,
      isWordChar_of_digit h9]

theorem ipn_boundary_first_c4_wit :
    extract_ipn ("1234567899".data ++ ' ' :: "1234567899".data) =
      "1234567899".data ∧
    extract_ipn ('х' :: "1234567899".data) = [] :=
  ⟨ipn_boundary_first_c4.1 ("1234567899".data) ("1234567899".data)
      (by decide) (by decide) (by decide) (by decide) (by decide) (by decide),
    ipn_boundary_first_c4.2 'х' ("1234567899".data) (by decide) (by decide)
      (by decide) (by decide)⟩

theorem matchNameAt_none {s : List Char} (h : borzhChk s = none) :
    matchNameAt s = none := by
  simp [matchNameAt, h]

theorem nameScan_none {t : List Char} (h : hasBorzh t = false) :
    ∀ prev, scanA (fun _ s => matchNameAt s) prev t = none := by
  induction t with
  | nil => intro prev; rfl
  | cons c rest ih =>
    intro prev
    rw [hasBorzh] at h
    have h1 : borzhChk (c :: rest) = none := by
      cases hb : borzhChk (c :: rest)
      · rfl
      · rw [hb] at h; simp at h
    have h2 : hasBorzh rest = false := by
      rcases Bool.or_eq_false_iff.mp h with ⟨_, h2⟩
      exact h2
    simp only [scanA, matchNameAt_none h1]
    exact ih h2 (some c)

/-- Claim C7, counterexample: the claim predicts that a `Платник:` label
followed by a valid name, or a bare capitalized name sequence with no
label, yields a non-null name; the code knows only the `Боржник` marker and
has no fallback tier, so both return nothing. -/
theorem name_tiers_c7_cex :
    extract_name ("Платник: Іванов Петро".data) = [] ∧
    extract_name ("Іванов Петро".data) = [] := by
  refine ⟨by decide, by decide⟩

/-- Claim C7, amended: name extraction has only the explicit `Боржник`
tier: when `боржник` does not occur (case-insensitively) in the narrative
the result is null — there is no other label and no fallback scan — and a
`Боржник:` label followed by 2–3 capitalized tokens yields that
sequence. -/
theorem name_borzhnik_only_c7 :
    (∀ t : List Char, hasBorzh t = false → extract_name t = []) ∧
    extract_name ("Боржник: Іванов Петро Сергійович".data) =
      "Іванов Петро Сергійович".data := by
  constructor
  · intro t h
    simp only [extract_name, nameScan_none h none]
  · decide

theorem name_borzhnik_only_c7_wit :
    extract_name ("Платник: Іванов Петро Сергійович".data) = [] :=
  name_borzhnik_only_c7.1 ("Платник: Іванов Петро Сергійович".data) (by decide)

/-- Claim C5: the amount normalizer is total (never raises): `1 234,56`
parses to 1234.56, empty and dash-only input normalize to null; and the
downstream credit filter keeps a row exactly when its normalized amount is
non-null and strictly positive, so null amounts are always excluded. -/
theorem amount_normalizer_c5 :
    parse_amount ("1 234,56".data) = some ((123456 : ℚ) / 100) ∧
    parse_amount ("".data) = none ∧
    parse_amount ("—".data) = none ∧
    creditKeep none = false ∧
    (∀ o : Option ℚ, creditKeep o = true ↔ ∃ v, o = some v ∧ 0 < v) := by
  have h1 : parse_amount ("1 234,56".data) = some (mkRat 123456 100) := by
    decide
  refine ⟨?_, by decide, by decide, rfl, ?_⟩
  · rw [h1]
    norm_num [Rat.mkRat_eq_div]
  intro o
  cases o with
  | none => simp [creditKeep]
  | some v => simp [creditKeep]

/-- Claim C6: on the two-row batch of the spec the pipeline keeps only the
first row (the second has amount 0), emits VD 12345, VP 87654321, the
debtor name, no IPN and no CaseID, and counts total=2, creditPositive=1. -/
theorem pipeline_end_to_end_c6 :
    processTable ["Призначення платежу", "Зараховано", "Дата"]
      [["Боржник: Іванов Петро Сергійович ВД№12345 ВП№87654321",
        "1 000,00", "01.02.2023"],
       ["service fee", "0", "01.02.2023"]] =
    Except.ok
      { total := 2, creditPos := 1, cntVp := 1, cntVd := 1, cntIpn := 0,
        cntCase := 0, cntNothing := 0,
        records := [{
          date := some ⟨2023, 2, 1⟩, vd := some 12345,
          vp := some 87654321, ipn := none, caseid := none,
          name := "Іванов Петро Сергійович".data, credit := some 1000,
          purpose := "Боржник: Іванов Петро Сергійович ВД№12345 ВП№87654321" }] } := by
  rfl

/-- Claim C8: date normalization is day-first (`03.04.2024` gives day 3,
month 4, year 2024), unparsable input yields null without raising, and a
surviving row whose date fails to parse is still emitted, with an empty
date field. -/
theorem date_dayfirst_c8 :
    normalize_date ("03.04.2024".data) = some ⟨2024, 4, 3⟩ ∧
    normalize_date ("".data) = none ∧
    normalize_date ("bad".data) = none ∧
    processTable ["Дата", "Зараховано", "Призначення платежу"]
      [["bad", "5", "abc"]] =
    Except.ok
      { total := 1, creditPos := 1, cntVp := 0, cntVd := 0, cntIpn := 0,
        cntCase := 0, cntNothing := 1,
        records := [{
          date := none, vd := none, vp := none, ipn := none,
          caseid := none, name := [], credit := some 5, purpose := "abc" }] } := by
  refine ⟨by decide, by decide, by decide, by rfl⟩

theorem pick_col_pair_none_iff (cols : List String) (a b : String) :
    pick_col cols [a, b] = none ↔ a ∉ cols ∧ b ∉ cols := by
  simp only [pick_col]
  split_ifs with h1 h2
  · simp [h1]
  · simp [h2]
  · simp [h1, h2]

/-- Claim C9: whenever a required logical field (exact narrative name, or
date / credit amount from their candidate lists) cannot be resolved against
the cleaned headers, the pipeline fails before producing any output records
(the error constructor carries no records), and the failure reports the
full list of missing logical fields together with the complete list of
detected headers. -/
theorem missing_columns_c9 (headers : List String) (rows : List (List String))
    (h : ("Дата" ∉ headers.map clean_header ∧
          "Дата операції" ∉ headers.map clean_header) ∨
         ("Зараховано" ∉ headers.map clean_header ∧
          "Кредит" ∉ headers.map clean_header) ∨
         "Призначення платежу" ∉ headers.map clean_header) :
    ∃ e : MissingErr, processTable headers rows = Except.error e ∧
      e.headers = headers.map clean_header ∧ e.missing ≠ [] ∧
      (("Дата" ∉ headers.map clean_header ∧
        "Дата операції" ∉ headers.map clean_header) ↔
        "Дата/Дата операції" ∈ e.missing) ∧
      (("Зараховано" ∉ headers.map clean_header ∧
        "Кредит" ∉ headers.map clean_header) ↔
        "Зараховано/Кредит" ∈ e.missing) ∧
      ("Призначення платежу" ∉ headers.map clean_header ↔
        "Призначення платежу" ∈ e.missing) := by
  have hdIff := pick_col_pair_none_iff (headers.map clean_header) "Дата"
    "Дата операції"
  have hcIff := pick_col_pair_none_iff (headers.map clean_header) "Зараховано"
    "Кредит"
  by_cases hd : ("Дата" ∉ headers.map clean_header ∧
      "Дата операції" ∉ headers.map clean_header)
  · by_cases hc : ("Зараховано" ∉ headers.map clean_header ∧
        "Кредит" ∉ headers.map clean_header)
    · by_cases hp : "Призначення платежу" ∈ headers.map clean_header
      · refine ⟨⟨["Дата/Дата операції", "Зараховано/Кредит"],
          headers.map clean_header⟩, ?_, rfl, by simp, ?_, ?_, ?_⟩
        · simp only [processTable, if_pos (hdIff.mpr hd), if_pos (hcIff.mpr hc),
            if_pos hp]
          simp
        · exact iff_of_true hd (by simp)
        · exact iff_of_true hc (by simp)
        · exact iff_of_false (fun hq => hq hp) (by simp)
      · refine ⟨⟨["Дата/Дата операції", "Зараховано/Кредит",
          "Призначення платежу"], headers.map clean_header⟩, ?_, rfl, by simp,
          ?_, ?_, ?_⟩
        · simp only [processTable, if_pos (hdIff.mpr hd), if_pos (hcIff.mpr hc),
            if_neg hp]
          simp
        · exact iff_of_true hd (by simp)
        · exact iff_of_true hc (by simp)
        · exact iff_of_true hp (by simp)
    · by_cases hp : "Призначення платежу" ∈ headers.map clean_header
      · refine ⟨⟨["Дата/Дата операції"], headers.map clean_header⟩, ?_, rfl,
          by simp, ?_, ?_, ?_⟩
        · simp only [processTable, if_pos (hdIff.mpr hd),
            if_neg (fun hn => hc (hcIff.mp hn)), if_pos hp]
          simp
        · exact iff_of_true hd (by simp)
        · exact iff_of_false hc (by simp)
        · exact iff_of_false (fun hq => hq hp) (by simp)
      · refine ⟨⟨["Дата/Дата операції", "Призначення платежу"],
          headers.map clean_header⟩, ?_, rfl, by simp, ?_, ?_, ?_⟩
        · simp only [processTable, if_pos (hdIff.mpr hd),
            if_neg (fun hn => hc (hcIff.mp hn)), if_neg hp]
          simp
        · exact iff_of_true hd (by simp)
        · exact iff_of_false hc (by simp)
        · exact iff_of_true hp (by simp)
  · by_cases hc : ("Зараховано" ∉ headers.map clean_header ∧
        "Кредит" ∉ headers.map clean_header)
    · by_cases hp : "Призначення платежу" ∈ headers.map clean_header
      · refine ⟨⟨["Зараховано/Кредит"], headers.map clean_header⟩, ?_, rfl,
          by simp, ?_, ?_, ?_⟩
        · simp only [processTable, if_neg (fun hn => hd (hdIff.mp hn)),
            if_pos (hcIff.mpr hc), if_pos hp]
          simp
        · exact iff_of_false hd (by simp)
        · exact iff_of_true hc (by simp)
        · exact iff_of_false (fun hq => hq hp) (by simp)
      · refine ⟨⟨["Зараховано/Кредит", "Призначення платежу"],
          headers.map clean_header⟩, ?_, rfl, by simp, ?_, ?_, ?_⟩
        · simp only [processTable, if_neg (fun hn => hd (hdIff.mp hn)),
            if_pos (hcIff.mpr hc), if_neg hp]
          simp
        · exact iff_of_false hd (by simp)
        · exact iff_of_true hc (by simp)
        · exact iff_of_true hp (by simp)
    · by_cases hp : "Призначення платежу" ∈ headers.map clean_header
      · rcases h with h | h | h
        · exact absurd h hd
        · exact absurd h hc
        · exact absurd hp h
      · refine ⟨⟨["Призначення платежу"], headers.map clean_header⟩, ?_, rfl,
          by simp, ?_, ?_, ?_⟩
        · simp only [processTable, if_neg (fun hn => hd (hdIff.mp hn)),
            if_neg (fun hn => hc (hcIff.mp hn)), if_neg hp]
          simp
        · exact iff_of_false hd (by simp)
        · exact iff_of_false hc (by simp)
        · exact iff_of_true hp (by simp)

theorem missing_columns_c9_wit :
    ∃ e : MissingErr,
      processTable ["Зараховано"] [] = Except.error e ∧
      e.headers = ["Зараховано"].map clean_header ∧ e.missing ≠ [] ∧
      (("Дата" ∉ ["Зараховано"].map clean_header ∧
        "Дата операції" ∉ ["Зараховано"].map clean_header) ↔
        "Дата/Дата операції" ∈ e.missing) ∧
      (("Зараховано" ∉ ["Зараховано"].map clean_header ∧
        "Кредит" ∉ ["Зараховано"].map clean_header) ↔
        "Зараховано/Кредит" ∈ e.missing) ∧
      ("Призначення платежу" ∉ ["Зараховано"].map clean_header ↔
        "Призначення платежу" ∈ e.missing) :=
  missing_columns_c9 ["Зараховано"] [] (Or.inl (by decide))

end Conv

